import Mathlib

/-!
Shallow embedding of the core of the Filer repository
(Filer/Filing/filestatser.py and Filer/Filing/gatherer.py).

Paths and Python strings are modelled as lists of characters; the
filesystem is modelled by the finite list of paths that exist.  The
os.path functions are embedded following ntpath (the code runs with the
backslash as os.sep and builds keys with "\\"), and Python str applied to
a non-negative int is embedded as the usual decimal representation.
-/

namespace Filer

/-- Paths and strings of the Python code, modelled as character lists. -/
abbrev Str : Type := List Char

/-- Convert a Lean string literal to the model's string type. -/
def str (s : String) : Str := s.data

/-- Decimal-digit conversion with explicit structural fuel (so that
concrete instances compute by kernel reduction); natChars below always
passes enough fuel. -/
def natCharsGo : Nat → Nat → Str
  | 0, _ => []
  | f + 1, n =>
    if n < 10 then [Nat.digitChar n]
    else natCharsGo f (n / 10) ++ [Nat.digitChar (n % 10)]

/-- Decimal digits of a natural number, most significant first (models
Python str applied to a non-negative int, as interpolated by the f-string
in rename_if_exists). -/
def natChars (n : Nat) : Str := natCharsGo (n + 1) n

/-- A character that ntpath treats as a directory separator (os.sep is the
backslash; the slash is altsep). -/
def isSep (c : Char) : Bool := c = '\\' || c = '/'

/-- os.path.join for the shapes the code uses: join a folder and a relative
name, inserting a backslash when the folder does not already end in a
separator (ntpath drive-letter handling is not exercised by the code). -/
def pjoin (a b : Str) : Str :=
  if a = [] then b
  else if isSep (a.getLast?.getD ' ') then a ++ b else a ++ '\\' :: b

/-- Scan a reversed path for the extension separator: collect the
characters that follow the last dot; give up when a path separator is
reached before any dot.  Returns the collected characters (in scan order,
i.e. reversed) together with the reversed stem. -/
def findExtRev : Str → Option (Str × Str)
  | [] => none
  | c :: cs =>
    if c = '.' then some ([], cs)
    else if isSep c then none
    else (findExtRev cs).map (fun pr => (c :: pr.1, pr.2))

/-- os.path.splitext (genericpath._splitext with the ntpath separators):
split a path into stem and extension; the final dot starts an extension
only if the basename has a non-dot character somewhere before it (so
".bashrc" has no extension). -/
def splitext (p : Str) : Str × Str :=
  match findExtRev p.reverse with
  | none => (p, [])
  | some (extRev, stemRev) =>
    if (stemRev.takeWhile (fun c => !(isSep c))).any (fun c => c != '.') then
      (stemRev.reverse, '.' :: extRev.reverse)
    else (p, [])

/-- Helper for remove_number_suffix, working on the reversed stem: the
regex r'^(.*?)\(\d+\)$' matches exactly when the string ends in a closing
parenthesis preceded by a nonempty digit run preceded by an opening
parenthesis; the reversed group 1 is everything before that. -/
def stripSuffixRev (r : Str) : Option Str :=
  match r with
  | [] => none
  | c :: rest =>
    if c = ')' then
      if rest.takeWhile Char.isDigit = [] then none
      else if (rest.drop (rest.takeWhile Char.isDigit).length).head? = some '(' then
        some ((rest.drop (rest.takeWhile Char.isDigit).length).tail)
      else none
    else none

/-- MediaGatherer.remove_number_suffix: re.match r'^(.*?)\(\d+\)$' against
the stem and return group 1 when the regex matches, i.e. strip one
trailing "(digits)" group.  The regex class \d is modelled as the ASCII
digits (the only digits the code itself ever appends). -/
def remove_number_suffix (basename : Str) : Str :=
  match stripSuffixRev basename.reverse with
  | some stemRev => stemRev.reverse
  | none => basename

/-- The candidate name built by the f-string in rename_if_exists:
f"{base_name}({counter}){extension}". -/
def cand (base ext : Str) (counter : Nat) : Str :=
  base ++ '(' :: (natChars counter ++ ')' :: ext)

/-- The while loop of rename_if_exists, with explicit fuel: the Python
loop is unbounded, and the theorems below show that the fuel passed by
rename_if_exists always suffices to reach the first free candidate. -/
def renameLoop (fs : List Str) (base ext : Str) : Str → Nat → Nat → Str
  | new, _, 0 => new
  | new, counter, f + 1 =>
    if new ∈ fs then renameLoop fs base ext (cand base ext counter) (counter + 1) f
    else new

/-- MediaGatherer.rename_if_exists. -/
def rename_if_exists (fs : List Str) (filename : Str) : Str :=
  let pr := splitext filename
  let base := remove_number_suffix pr.1
  renameLoop fs base pr.2 filename 1 (fs.length + 2)

/-- MediaGatherer.handle_file_conflict: resolve a destination path against
the set of existing paths. -/
def handle_file_conflict (fs : List Str) (destination_path : Str) : Str :=
  if destination_path ∈ fs then rename_if_exists fs destination_path
  else destination_path

/-- The unit labels of FileStatsCollector.format_size, in loop order. -/
def sizeUnits : List Str := [str "B", str "KB", str "MB", str "GB", str "TB"]

/-- The for-loop of format_size.  The running Python float is exactly
size / 1024^k after k divisions (an integer below 2^53 converts to float
exactly and dividing by 2^10 only shifts the exponent), so the loop is
embedded on the exact value num / den with den the accumulated power of
1024: size /= 1024.0 multiplies den by 1024, and the break test
size < 1024.0 is num < 1024 * den.  As in the code, the division also
runs on the final TB iteration when the test fails, and the last
assigned unit is used after the loop. -/
def fsLoop : Nat → Nat → List Str → (Nat × Nat) × Str
  | num, den, [] => ((num, den), [])
  | num, den, [u] =>
    if num < 1024 * den then ((num, den), u) else ((num, den * 1024), u)
  | num, den, u :: v :: rest =>
    if num < 1024 * den then ((num, den), u) else fsLoop num (den * 1024) (v :: rest)

/-- The rounded count of hundredths of num / den: nearest, ties to even. -/
def roundCents (num den : Nat) : Nat :=
  if 2 * (100 * num % den) < den then 100 * num / den
  else if den < 2 * (100 * num % den) then 100 * num / den + 1
  else if 100 * num / den % 2 = 0 then 100 * num / den
  else 100 * num / den + 1

/-- Round (num / den) * 100 to the nearest integer, ties to even — what
the format specifier ".2f" does to the exact value held by the float (for
the values format_size produces, den is a power of two, so ties cannot
occur) — then render with two decimal places. -/
def format2 (num den : Nat) : Str :=
  natChars (roundCents num den / 100) ++ '.' ::
    (if roundCents num den % 100 < 10 then '0' :: natChars (roundCents num den % 100)
    else natChars (roundCents num den % 100))

/-- FileStatsCollector.format_size on a byte count:
"{:.2f} {}".format(size, unit). -/
def format_size (size : Nat) : Str :=
  format2 (fsLoop size 1 sizeUnits).1.1 (fsLoop size 1 sizeUnits).1.2 ++
    ' ' :: (fsLoop size 1 sizeUnits).2

/-- A directory entry for a file, as surfaced by os.scandir: the name and
the stat snapshot fields the code reads (st_size, st_ctime, st_mtime;
timestamps are kept as raw numbers, the datetime rendering being
presentation glue outside the embedded core). -/
structure FEntry where
  name : Str
  size : Nat
  ctime : Nat
  mtime : Nat
deriving DecidableEq

/-- One directory visited by os.walk: its full path and its direct file
entries (every scandir entry with entry.is_file() true). -/
structure Folder where
  path : Str
  files : List FEntry
deriving DecidableEq

/-- The scan configuration held by FileStatsCollector: media_extensions,
all_files and skip_folders. -/
structure ScanCfg where
  extensions : List Str
  all_files : Bool
  skip_folders : List Str

/-- One stats dict appended by process_files: File Name, File Type, File
Size (Bytes), File Size (Human Readable), Creation Date, Modification
Date, Source Folder. -/
structure FileRecord where
  fileName : Str
  fileType : Str
  sizeBytes : Nat
  sizeHuman : Str
  creation : Nat
  modification : Nat
  sourceFolder : Str
deriving DecidableEq

/-- FileStatsCollector.is_media_file:
any(filename.lower().endswith(ext) for ext in self.media_extensions). -/
def is_media_file (extensions : List Str) (filename : Str) : Bool :=
  extensions.any (fun ext => decide (ext <:+ filename.map Char.toLower))

/-- The stats dict built by process_files for one entry. -/
def mkRecord (foldername : Str) (f : FEntry) : FileRecord :=
  { fileName := f.name
    fileType := (splitext f.name).2.map Char.toLower
    sizeBytes := f.size
    sizeHuman := format_size f.size
    creation := f.ctime
    modification := f.mtime
    sourceFolder := foldername }

/-- FileStatsCollector.process_files on one folder: keep an entry when
all_files is set or is_media_file accepts its name. -/
def process_files (cfg : ScanCfg) (fo : Folder) : List FileRecord :=
  (fo.files.filter (fun f => cfg.all_files || is_media_file cfg.extensions f.name)).map
    (mkRecord fo.path)

/-- The folder filter of _gather_file_stats:
all(skip_folder not in foldername for skip_folder in self.skip_folders),
where the Python in-operator on strings is substring containment. -/
def keepFolder (skips : List Str) (foldername : Str) : Bool :=
  skips.all (fun s => !(decide (s <:+: foldername)))

/-- FileStatsCollector._gather_file_stats: run process_files on every
os.walk folder whose full path contains no skip entry as a substring and
concatenate the per-folder record lists (the pool's starmap returns them
in walk order). -/
def gather_file_stats (cfg : ScanCfg) (walk : List Folder) : List FileRecord :=
  ((walk.filter (fun fo => keepFolder cfg.skip_folders fo.path)).map (process_files cfg)).flatten

/-- The filesystem facts consulted by the embedded code: which paths
exist (os.path.exists), plus — as ground truth the collector never
consults — which of those paths are directories. -/
structure World where
  existsPaths : List Str
  dirPaths : List Str

/-- FileStatsCollector.check_root_folder: os.path.exists only; the raised
FileNotFoundError is modelled as Except.error. -/
def check_root_folder (w : World) (folder : Str) : Except Str Str :=
  if folder ∈ w.existsPaths then Except.ok folder else Except.error folder

/-- FileStatsCollector.__init__: validate the root eagerly, then run the
scan over the os.walk listing and store the records. -/
def collector_init (w : World) (walk : List Folder) (root : Str) (cfg : ScanCfg) :
    Except Str (List FileRecord) :=
  match check_root_folder w root with
  | Except.error e => Except.error e
  | Except.ok _ => Except.ok (gather_file_stats cfg walk)

/-- MediaGatherer.__init__: default the destination to root\media, append
it to the skip list, then run the base-class constructor; the result is
the scanned file stats together with dest_folder. -/
def mediaGatherer_init (w : World) (walk : List Folder) (root : Str)
    (destination_folder : Option Str) (skip_folders : Option (List Str))
    (media_extensions : List Str) (all_files : Bool) :
    Except Str (List FileRecord × Str) :=
  match collector_init w walk root
      ⟨media_extensions, all_files,
        (skip_folders.getD []) ++ [destination_folder.getD (pjoin root (str "media"))]⟩ with
  | Except.error e => Except.error e
  | Except.ok stats => Except.ok (stats, destination_folder.getD (pjoin root (str "media")))

/-- Gatherer.set_extensions, for extension lists without an empty entry
(with an empty entry the code blocks on interactive input). -/
def set_extensions (extensions : List Str) : List Str := extensions

/-- Gatherer.__init__: default the destination to root\"Extracted Files"
and delegate to MediaGatherer.__init__ with that destination. -/
def gatherer_init (w : World) (walk : List Folder) (root : Str)
    (destination_folder : Option Str) (skip_folders : Option (List Str))
    (extensions : List Str) (all_files : Bool) :
    Except Str (List FileRecord × Str) :=
  mediaGatherer_init w walk root
    (some (destination_folder.getD (pjoin root (str "Extracted Files"))))
    skip_folders (set_extensions extensions) all_files

/-- The mutable state of a move run: the file paths that exist and
self.moved_files, the source-path to final-destination mapping, which is
cumulative across batches within one run. -/
structure MoveSt where
  fs : List Str
  moved : List (Str × Str)
deriving DecidableEq

/-- source_path = os.path.join(file_stat['Source Folder'],
file_stat['File Name']). -/
def srcPath (r : FileRecord) : Str := pjoin r.sourceFolder r.fileName

/-- destination_path = os.path.join(destination_folder,
file_stat['File Name']). -/
def dstPath (destination_folder : Str) (r : FileRecord) : Str :=
  pjoin destination_folder r.fileName

/-- The for-loop of move_files_to_destination.  shutil.move succeeds when
the source exists, removing it and creating the conflict-resolved
destination; a vanished source raises (the modelled per-record failure —
permission or cross-device errors have the same control flow).  The whole
loop runs inside one try/except, so an exception escapes the loop: the
second component reports whether the call was aborted, the state reached
so far being kept either way.  (create_media_folder only makes
directories, which handle_file_conflict never consults.) -/
def moveRecords (destination_folder : Str) : MoveSt → List FileRecord → MoveSt × Bool
  | st, [] => (st, false)
  | st, r :: rs =>
    if srcPath r = dstPath destination_folder r then
      moveRecords destination_folder st rs
    else
      if srcPath r ∈ st.fs then
        moveRecords destination_folder
          ⟨(st.fs.erase (srcPath r)) ++
              [handle_file_conflict st.fs (dstPath destination_folder r)],
            st.moved ++
              [(srcPath r, handle_file_conflict st.fs (dstPath destination_folder r))]⟩ rs
      else (st, true)

/-- MediaGatherer.move_files_to_destination: run the loop, catching (and
logging) any exception, and return the state reached. -/
def move_files_to_destination (st : MoveSt) (destination_folder : Str)
    (files_to_move : List FileRecord) : MoveSt :=
  (moveRecords destination_folder st files_to_move).1

/-- The batch slices files_to_move[i : i + batch_size] produced by
range(0, len(files_to_move), batch_size), with structural fuel so that
the recursion is total.  A batch size of 0 makes the Python range raise
(caught by the except with nothing processed and no sleep), which the
empty slice list models. -/
def chunkGo (bs : Nat) : Nat → List FileRecord → List (List FileRecord)
  | 0, _ => []
  | _, [] => []
  | fuel + 1, l => l.take bs :: chunkGo bs fuel (l.drop bs)

/-- The list of batches of _batch_move_files. -/
def chunkList (bs : Nat) (l : List FileRecord) : List (List FileRecord) :=
  if bs = 0 then [] else chunkGo bs l.length l

/-- MediaGatherer._batch_move_files: move each slice with
move_files_to_destination (whose own try/except already contains any
per-record failure) and call sleep(delay) after every slice; the second
component counts the executed sleep calls. -/
def batch_move_files (destination_folder : Str) (batch_size : Nat) (st : MoveSt)
    (files_to_move : List FileRecord) : MoveSt × Nat :=
  (chunkList batch_size files_to_move).foldl
    (fun acc b => (move_files_to_destination acc.1 destination_folder b, acc.2 + 1)) (st, 0)

/-- Python max(iterable, key=file_types.count): the first element of the
iterable attaining the maximal key — a left fold replacing the best
element only on a strictly greater count. -/
def pymaxByCount (types : List Str) : List Str → Option Str
  | [] => none
  | x :: xs =>
    some (xs.foldl (fun best a => if types.count best < types.count a then a else best) x)

/-- FileStatsCollector.get_summary_stats: (total_files, total_folders,
total_size, avg_size, most_occurring_file_type).  Python computes the
maximum over set(file_types); a CPython set of strings iterates in an
implementation-defined (hash-randomised) order, so the embedding takes
that order as the explicit argument setOrder, constrained in the
theorems to enumerate the distinct file types. -/
def get_summary_stats (stats : List FileRecord) (setOrder : List Str) :
    Nat × Nat × Nat × ℚ × Option Str :=
  if stats.length = 0 then (0, 0, 0, 0, none)
  else
    (stats.length,
      ((stats.map FileRecord.sourceFolder).dedup).length,
      (stats.map FileRecord.sizeBytes).sum,
      ((stats.map FileRecord.sizeBytes).sum : ℚ) / (stats.length : ℚ),
      pymaxByCount (stats.map FileRecord.fileType) setOrder)

/-- Modelled from the claim's reproduction recipe, not from the code: the
histogram order that preserves first-seen occurrence of each file type. -/
def firstSeenDedup (types : List Str) : List Str :=
  types.foldl (fun acc t => if t ∈ acc then acc else acc ++ [t]) []

theorem natCharsGo_fuel : ∀ n f g : Nat, n < f → n < g → natCharsGo f n = natCharsGo g n := by
  intro n
  induction n using Nat.strong_induction_on with
  | _ n IH =>
    intro f g hf hg
    cases f with
    | zero => omega
    | succ fa =>
      cases g with
      | zero => omega
      | succ ga =>
        by_cases h : n < 10
        · simp [natCharsGo, h]
        · simp only [natCharsGo, if_neg h]
          have hlt : n / 10 < n := Nat.div_lt_self (by omega) (by omega)
          rw [IH (n / 10) hlt fa (n / 10 + 1) (by omega) (by omega),
              IH (n / 10) hlt ga (n / 10 + 1) (by omega) (by omega)]

theorem digitChar_isDigit {n : Nat} (h : n < 10) : (Nat.digitChar n).isDigit = true := by
  have H : ∀ x : Fin 10, (Nat.digitChar x.val).isDigit = true := by decide
  exact H ⟨n, h⟩

theorem digitChar_injOn {a b : Nat} (ha : a < 10) (hb : b < 10)
    (h : Nat.digitChar a = Nat.digitChar b) : a = b := by
  have H : ∀ x y : Fin 10, Nat.digitChar x.val = Nat.digitChar y.val → x = y := by decide
  exact congrArg Fin.val (H ⟨a, ha⟩ ⟨b, hb⟩ h)

theorem natChars_eq_small {n : Nat} (h : n < 10) : natChars n = [Nat.digitChar n] := by
  simp [natChars, natCharsGo, h]

theorem natChars_eq_large {n : Nat} (h : ¬ n < 10) :
    natChars n = natChars (n / 10) ++ [Nat.digitChar (n % 10)] := by
  show natCharsGo (n + 1) n = _
  rw [natCharsGo, if_neg h,
    natCharsGo_fuel (n / 10) n (n / 10 + 1) (by omega) (by omega)]
  rfl

theorem natChars_ne_nil (n : Nat) : natChars n ≠ [] := by
  by_cases h : n < 10
  · rw [natChars_eq_small h]
    simp
  · rw [natChars_eq_large h]
    simp

theorem natChars_all_digits (n : Nat) : ∀ c ∈ natChars n, c.isDigit = true := by
  induction n using Nat.strong_induction_on with
  | _ n IH =>
    intro c hc
    by_cases h : n < 10
    · rw [natChars_eq_small h] at hc
      simp only [List.mem_singleton] at hc
      exact hc ▸ digitChar_isDigit h
    · rw [natChars_eq_large h] at hc
      rcases List.mem_append.mp hc with h1 | h2
      · exact IH (n / 10) (Nat.div_lt_self (by omega) (by omega)) c h1
      · simp only [List.mem_singleton] at h2
        exact h2 ▸ digitChar_isDigit (Nat.mod_lt _ (by omega))

theorem natChars_inj : ∀ m n : Nat, natChars m = natChars n → m = n := by
  intro m
  induction m using Nat.strong_induction_on with
  | _ m IH =>
    intro n h
    by_cases hm : m < 10 <;> by_cases hn : n < 10
    · rw [natChars_eq_small hm, natChars_eq_small hn] at h
      exact digitChar_injOn hm hn (List.singleton_inj.mp h)
    · rw [natChars_eq_small hm, natChars_eq_large hn] at h
      have hl := congrArg List.length h
      have hlen := List.length_pos.mpr (natChars_ne_nil (n / 10))
      simp only [List.length_singleton, List.length_append] at hl
      omega
    · rw [natChars_eq_large hm, natChars_eq_small hn] at h
      have hl := congrArg List.length h
      have hlen := List.length_pos.mpr (natChars_ne_nil (m / 10))
      simp only [List.length_singleton, List.length_append] at hl
      omega
    · rw [natChars_eq_large hm, natChars_eq_large hn] at h
      have hpair := List.append_inj' h (by simp)
      have h1 : m / 10 = n / 10 :=
        IH (m / 10) (Nat.div_lt_self (by omega) (by omega)) (n / 10) hpair.1
      have h2 : m % 10 = n % 10 :=
        digitChar_injOn (Nat.mod_lt _ (by omega)) (Nat.mod_lt _ (by omega))
          (List.singleton_inj.mp hpair.2)
      omega

theorem cand_inj (base ext : Str) : ∀ m n : Nat, cand base ext m = cand base ext n → m = n := by
  intro m n h
  unfold cand at h
  have h1 := List.append_cancel_left h
  simp only [List.cons.injEq, true_and] at h1
  exact natChars_inj m n (List.append_cancel_right h1)

theorem cand_free_exists (fs : List Str) (base ext : Str) :
    ∃ n, 1 ≤ n ∧ n ≤ fs.length + 1 ∧ cand base ext n ∉ fs := by
  by_contra hnot
  push_neg at hnot
  have hsub : ∀ a ∈ Finset.Icc 1 (fs.length + 1), cand base ext a ∈ fs.toFinset := by
    intro a ha
    rw [Finset.mem_Icc] at ha
    exact List.mem_toFinset.mpr (hnot a ha.1 ha.2)
  have hinj : Set.InjOn (cand base ext) (Finset.Icc 1 (fs.length + 1)) := by
    intro a _ b _ hab
    exact cand_inj base ext a b hab
  have hcard := Finset.card_le_card_of_injOn (cand base ext) hsub hinj
  rw [Nat.card_Icc] at hcard
  have htf := List.toFinset_card_le (l := fs)
  omega

theorem renameLoop_notMem (fs : List Str) (base ext new : Str) (counter fuel : Nat)
    (h : new ∉ fs) : renameLoop fs base ext new counter fuel = new := by
  cases fuel with
  | zero => rfl
  | succ f =>
    rw [renameLoop]
    exact if_neg h

theorem renameLoop_finds (fs : List Str) (base ext : Str) (N : Nat) :
    ∀ fuel counter new, counter ≤ N → cand base ext N ∉ fs →
    (∀ m, counter ≤ m → m < N → cand base ext m ∈ fs) →
    N - counter < fuel → new ∈ fs →
    renameLoop fs base ext new counter fuel = cand base ext N := by
  intro fuel
  induction fuel with
  | zero =>
    intro counter new _ _ _ hfuel _
    omega
  | succ f IH =>
    intro counter new hc hfree hused hfuel hmem
    rw [renameLoop, if_pos hmem]
    by_cases heq : counter = N
    · subst heq
      exact renameLoop_notMem fs base ext _ _ _ hfree
    · have hlt : counter < N := lt_of_le_of_ne hc heq
      exact IH (counter + 1) (cand base ext counter) hlt hfree
        (fun m hm1 hm2 => hused m (by omega) hm2) (by omega)
        (hused counter (le_refl _) hlt)

theorem rename_if_exists_eq (fs : List Str) (p : Str) (hmem : p ∈ fs) :
    ∃ N, 1 ≤ N ∧
      cand (remove_number_suffix (splitext p).1) (splitext p).2 N ∉ fs ∧
      (∀ m, 1 ≤ m → m < N →
        cand (remove_number_suffix (splitext p).1) (splitext p).2 m ∈ fs) ∧
      rename_if_exists fs p = cand (remove_number_suffix (splitext p).1) (splitext p).2 N := by
  set base := remove_number_suffix (splitext p).1 with hbase
  set ext := (splitext p).2 with hext
  have hex : ∃ n, 1 ≤ n ∧ cand base ext n ∉ fs := by
    obtain ⟨n, h1, _, h3⟩ := cand_free_exists fs base ext
    exact ⟨n, h1, h3⟩
  classical
  refine ⟨Nat.find hex, (Nat.find_spec hex).1, (Nat.find_spec hex).2, ?_, ?_⟩
  · intro m hm1 hm2
    have := Nat.find_min hex hm2
    simp only [not_and, not_not] at this
    exact this hm1
  · have hbound : Nat.find hex ≤ fs.length + 1 := by
      obtain ⟨n, h1, h2, h3⟩ := cand_free_exists fs base ext
      exact le_trans (Nat.find_min' hex ⟨h1, h3⟩) h2
    have hused : ∀ m, 1 ≤ m → m < Nat.find hex → cand base ext m ∈ fs := by
      intro m hm1 hm2
      have hmin := Nat.find_min hex hm2
      simp only [not_and, not_not] at hmin
      exact hmin hm1
    show renameLoop fs base ext p 1 (fs.length + 2) = cand base ext (Nat.find hex)
    exact renameLoop_finds fs base ext (Nat.find hex) (fs.length + 2) 1 p
      (Nat.find_spec hex).1 (Nat.find_spec hex).2
      (fun m hm1 hm2 => hused m hm1 hm2) (by omega) hmem

/-- C1: for a desired destination path p, handle_file_conflict returns p
unchanged when p does not exist; when p exists it returns the first unused
candidate base(N)+extension for N = 1, 2, ... (base = p's stem with a
trailing "(digits)" suffix stripped), a path that does not exist at call
time and differs from p. -/
theorem C1_handle_file_conflict (fs : List Str) (p : Str) (hmem : p ∈ fs) :
    (∀ q, q ∉ fs → handle_file_conflict fs q = q) ∧
    ∃ N, 1 ≤ N ∧
      cand (remove_number_suffix (splitext p).1) (splitext p).2 N ∉ fs ∧
      (∀ m, 1 ≤ m → m < N →
        cand (remove_number_suffix (splitext p).1) (splitext p).2 m ∈ fs) ∧
      handle_file_conflict fs p = cand (remove_number_suffix (splitext p).1) (splitext p).2 N ∧
      handle_file_conflict fs p ∉ fs ∧
      handle_file_conflict fs p ≠ p := by
  constructor
  · intro q hq
    unfold handle_file_conflict
    exact if_neg hq
  · obtain ⟨N, h1, h2, h3, h4⟩ := rename_if_exists_eq fs p hmem
    have hh : handle_file_conflict fs p =
        cand (remove_number_suffix (splitext p).1) (splitext p).2 N := by
      unfold handle_file_conflict
      rw [if_pos hmem]
      exact h4
    refine ⟨N, h1, h2, h3, hh, ?_, ?_⟩
    · rw [hh]; exact h2
    · rw [hh]
      intro hcontra
      rw [hcontra] at h2
      exact h2 hmem

/-- Witness for C1 at a concrete filesystem: resolving "a.txt" against
existing paths "a.txt" and "a(1).txt". -/
theorem C1_handle_file_conflict_witness :
    (∀ q, q ∉ [str "a.txt", str "a(1).txt"] →
      handle_file_conflict [str "a.txt", str "a(1).txt"] q = q) ∧
    ∃ N, 1 ≤ N ∧
      cand (remove_number_suffix (splitext (str "a.txt")).1) (splitext (str "a.txt")).2 N
        ∉ [str "a.txt", str "a(1).txt"] ∧
      (∀ m, 1 ≤ m → m < N →
        cand (remove_number_suffix (splitext (str "a.txt")).1) (splitext (str "a.txt")).2 m
          ∈ [str "a.txt", str "a(1).txt"]) ∧
      handle_file_conflict [str "a.txt", str "a(1).txt"] (str "a.txt")
        = cand (remove_number_suffix (splitext (str "a.txt")).1) (splitext (str "a.txt")).2 N ∧
      handle_file_conflict [str "a.txt", str "a(1).txt"] (str "a.txt")
        ∉ [str "a.txt", str "a(1).txt"] ∧
      handle_file_conflict [str "a.txt", str "a(1).txt"] (str "a.txt") ≠ str "a.txt" :=
  C1_handle_file_conflict [str "a.txt", str "a(1).txt"] (str "a.txt") (by decide)

theorem takeWhile_append_all {p : Char → Bool} : ∀ (l : Str) (c : Char) (r : Str),
    (∀ x ∈ l, p x = true) → p c = false →
    (l ++ c :: r).takeWhile p = l := by
  intro l
  induction l with
  | nil =>
    intro c r _ hc
    simp [List.takeWhile_cons, hc]
  | cons x xs IH =>
    intro c r hl hc
    have hx : p x = true := hl x (by simp)
    rw [List.cons_append, List.takeWhile_cons_of_pos hx]
    rw [IH c r (fun y hy => hl y (by simp [hy])) hc]

theorem remove_number_suffix_cand (b : Str) (n : Nat) :
    remove_number_suffix (b ++ '(' :: (natChars n ++ [')'])) = b := by
  have hrev : (b ++ '(' :: (natChars n ++ [')'])).reverse
      = ')' :: ((natChars n).reverse ++ '(' :: b.reverse) := by
    simp [List.reverse_append]
  have hdigits : ∀ x ∈ (natChars n).reverse, x.isDigit = true := by
    intro x hx
    exact natChars_all_digits n x (List.mem_reverse.mp hx)
  have htw : (((natChars n).reverse ++ '(' :: b.reverse).takeWhile Char.isDigit)
      = (natChars n).reverse :=
    takeWhile_append_all _ '(' _ hdigits (by decide)
  have hne : (natChars n).reverse ≠ [] := by
    intro hcontra
    exact natChars_ne_nil n (List.reverse_eq_nil_iff.mp hcontra)
  have hstrip : stripSuffixRev ((b ++ '(' :: (natChars n ++ [')'])).reverse)
      = some b.reverse := by
    rw [hrev]
    rw [stripSuffixRev]
    rw [if_pos rfl, htw, if_neg hne]
    rw [List.drop_left]
    simp
  rw [remove_number_suffix, hstrip]
  exact List.reverse_reverse b

/-- C2: conflict resolution never stacks suffixes: a stem that already
ends in a single "(digits)" group is collapsed to the bare base before
probing, and in the concrete scenario where the destination already holds
x.jpg, resolving a new x.jpg gives x(1).jpg, and resolving a further
x.jpg afterwards gives x(2).jpg, never x(1)(1).jpg. -/
theorem C2_no_suffix_stacking (b : Str) (n : Nat) :
    remove_number_suffix (b ++ '(' :: (natChars n ++ [')'])) = b ∧
    handle_file_conflict [str "d\\x.jpg"] (str "d\\x.jpg") = str "d\\x(1).jpg" ∧
    handle_file_conflict [str "d\\x.jpg", str "d\\x(1).jpg"] (str "d\\x.jpg")
      = str "d\\x(2).jpg" ∧
    handle_file_conflict [str "d\\x(1).jpg"] (str "d\\x(1).jpg") = str "d\\x(2).jpg" := by
  refine ⟨remove_number_suffix_cand b n, ?_, ?_, ?_⟩ <;> decide

theorem mkRecord_inj {p q : Str} {f g : FEntry} (h : mkRecord p f = mkRecord q g) :
    p = q ∧ f = g := by
  unfold mkRecord at h
  simp only [FileRecord.mk.injEq] at h
  obtain ⟨h1, h2, h3, h4, h5, h6, h7⟩ := h
  cases f
  cases g
  simp_all

theorem mem_gather_iff (cfg : ScanCfg) (walk : List Folder) (r : FileRecord) :
    r ∈ gather_file_stats cfg walk ↔
      ∃ fo ∈ walk, keepFolder cfg.skip_folders fo.path = true ∧
        ∃ f ∈ fo.files, (cfg.all_files || is_media_file cfg.extensions f.name) = true ∧
          r = mkRecord fo.path f := by
  unfold gather_file_stats process_files
  rw [List.mem_flatten]
  constructor
  · rintro ⟨l, hl, hrl⟩
    rw [List.mem_map] at hl
    obtain ⟨fo, hfo, rfl⟩ := hl
    rw [List.mem_filter] at hfo
    rw [List.mem_map] at hrl
    obtain ⟨f, hf, rfl⟩ := hrl
    rw [List.mem_filter] at hf
    exact ⟨fo, hfo.1, hfo.2, f, hf.1, hf.2, rfl⟩
  · rintro ⟨fo, hfo, hkeep, f, hf, hcls, rfl⟩
    refine ⟨(fo.files.filter
        (fun f => cfg.all_files || is_media_file cfg.extensions f.name)).map
        (mkRecord fo.path), ?_, ?_⟩
    · rw [List.mem_map]
      exact ⟨fo, List.mem_filter.mpr ⟨hfo, hkeep⟩, rfl⟩
    · rw [List.mem_map]
      exact ⟨f, List.mem_filter.mpr ⟨hf, hcls⟩, rfl⟩

theorem gather_not_skip (cfg : ScanCfg) (walk : List Folder) (s : Str)
    (hs : s ∈ cfg.skip_folders) :
    ∀ r ∈ gather_file_stats cfg walk, ¬ (s <:+: r.sourceFolder) := by
  intro r hr hinf
  obtain ⟨fo, hfo, hkeep, f, hf, hcls, rfl⟩ := (mem_gather_iff cfg walk r).mp hr
  unfold keepFolder at hkeep
  rw [List.all_eq_true] at hkeep
  have hnot := hkeep s hs
  simp only [Bool.not_eq_true', decide_eq_false_iff_not] at hnot
  exact hnot hinf

/-- C8 (amended): the scan fails with the root-not-found error exactly
when the configured root does not exist — whether the root is a directory
is not checked — and the check is evaluated eagerly, before and
independently of the traversal; for any existing root the scan
proceeds. -/
theorem C8_root_check (w : World) (walk : List Folder) (root : Str) (cfg : ScanCfg) :
    ((∃ e, collector_init w walk root cfg = Except.error e) ↔ root ∉ w.existsPaths) ∧
    (root ∈ w.existsPaths →
      collector_init w walk root cfg = Except.ok (gather_file_stats cfg walk)) := by
  have hok : root ∈ w.existsPaths →
      collector_init w walk root cfg = Except.ok (gather_file_stats cfg walk) := by
    intro hmem
    unfold collector_init check_root_folder
    rw [if_pos hmem]
  refine ⟨⟨?_, ?_⟩, hok⟩
  · rintro ⟨e, he⟩ hmem
    rw [hok hmem] at he
    cases he
  · intro hnot
    refine ⟨root, ?_⟩
    unfold collector_init check_root_folder
    rw [if_neg hnot]

/-- Witness for C8 at a concrete world: the root "r" exists, so the scan
runs and returns the records of the walk. -/
theorem C8_root_check_witness :
    collector_init ⟨[str "r"], [str "r"]⟩ [] (str "r") ⟨[], true, []⟩
      = Except.ok (gather_file_stats ⟨[], true, []⟩ []) :=
  (C8_root_check ⟨[str "r"], [str "r"]⟩ [] (str "r") ⟨[], true, []⟩).2 (by decide)

/-- C8 counterexample: a root that exists but is not a directory passes
check_root_folder, so the scan does not fail, contradicting the claim
that it fails whenever the root is not a directory. -/
theorem C8_counterexample :
    (str "root.txt") ∈ (World.mk [str "root.txt"] []).existsPaths ∧
    (str "root.txt") ∉ (World.mk [str "root.txt"] []).dirPaths ∧
    collector_init (World.mk [str "root.txt"] []) [] (str "root.txt") ⟨[], true, []⟩
      = Except.ok [] := by
  refine ⟨by decide, by decide, rfl⟩

/-- C10: constructing a MediaGatherer or a Gatherer appends the resolved
destination folder to the skip list before the initial scan runs, so no
record of that scan has a source folder containing the destination folder
path as a substring. -/
theorem C10_destination_skipped (w : World) (walk : List Folder) (root : Str)
    (destination_folder : Option Str) (skip_folders : Option (List Str))
    (extensions : List Str) (all_files : Bool) (resM resG : List FileRecord × Str)
    (hne : [] ∉ extensions)
    (hM : mediaGatherer_init w walk root destination_folder skip_folders extensions all_files
      = Except.ok resM)
    (hG : gatherer_init w walk root destination_folder skip_folders extensions all_files
      = Except.ok resG) :
    (∀ r ∈ resM.1, ¬ (resM.2 <:+: r.sourceFolder)) ∧
    (∀ r ∈ resG.1, ¬ (resG.2 <:+: r.sourceFolder)) := by
  constructor
  · unfold mediaGatherer_init at hM
    by_cases hroot : root ∈ w.existsPaths
    · rw [(C8_root_check w walk root _).2 hroot] at hM
      cases hM
      exact gather_not_skip _ walk _ (by simp)
    · obtain ⟨e, he⟩ := (C8_root_check w walk root
        ⟨extensions, all_files,
          (skip_folders.getD []) ++ [destination_folder.getD (pjoin root (str "media"))]⟩).1.mpr hroot
      rw [he] at hM
      cases hM
  · unfold gatherer_init set_extensions mediaGatherer_init at hG
    by_cases hroot : root ∈ w.existsPaths
    · rw [(C8_root_check w walk root _).2 hroot] at hG
      cases hG
      exact gather_not_skip _ walk _ (by simp)
    · obtain ⟨e, he⟩ := (C8_root_check w walk root
        ⟨extensions, all_files,
          (skip_folders.getD []) ++
            [(some ((destination_folder.getD (pjoin root (str "Extracted Files"))))).getD
              (pjoin root (str "media"))]⟩).1.mpr hroot
      rw [he] at hG
      cases hG

/-- Witness for C10 at a concrete world: scanning root "r" (which holds
a.jpg) with the default destinations. -/
theorem C10_destination_skipped_witness :
    (∀ r ∈ ([mkRecord (str "r") ⟨str "a.jpg", 1, 0, 0⟩], str "r\\media").1,
      ¬ (([mkRecord (str "r") ⟨str "a.jpg", 1, 0, 0⟩], str "r\\media").2 <:+: r.sourceFolder)) ∧
    (∀ r ∈ ([mkRecord (str "r") ⟨str "a.jpg", 1, 0, 0⟩], str "r\\Extracted Files").1,
      ¬ (([mkRecord (str "r") ⟨str "a.jpg", 1, 0, 0⟩],
          str "r\\Extracted Files").2 <:+: r.sourceFolder)) :=
  C10_destination_skipped ⟨[str "r"], [str "r"]⟩ [⟨str "r", [⟨str "a.jpg", 1, 0, 0⟩]⟩]
    (str "r") none none [str ".jpg"] false
    ([mkRecord (str "r") ⟨str "a.jpg", 1, 0, 0⟩], str "r\\media")
    ([mkRecord (str "r") ⟨str "a.jpg", 1, 0, 0⟩], str "r\\Extracted Files")
    (by decide) rfl rfl

theorem process_files_all_true (extensions skips : List Str) (fo : Folder) :
    process_files ⟨extensions, true, skips⟩ fo = fo.files.map (mkRecord fo.path) := by
  unfold process_files
  simp

theorem gather_cons (cfg : ScanCfg) (fo0 : Folder) (rest : List Folder) :
    gather_file_stats cfg (fo0 :: rest)
      = (if keepFolder cfg.skip_folders fo0.path then process_files cfg fo0 else [])
        ++ gather_file_stats cfg rest := by
  unfold gather_file_stats
  by_cases hk : keepFolder cfg.skip_folders fo0.path
  · simp [List.filter_cons, hk]
  · simp [List.filter_cons, hk]

theorem count_gather_all (extensions skips : List Str) :
    ∀ walk : List Folder, (walk.map Folder.path).Nodup →
    (∀ fo ∈ walk, fo.files.Nodup) →
    ∀ fo ∈ walk, ∀ f ∈ fo.files,
      (gather_file_stats ⟨extensions, true, skips⟩ walk).count (mkRecord fo.path f)
        = if keepFolder skips fo.path then 1 else 0 := by
  intro walk
  induction walk with
  | nil =>
    intro _ _ fo hfo
    simp at hfo
  | cons fo0 rest IH =>
    intro hpaths hfiles fo hfo f hf
    rw [List.map_cons, List.nodup_cons] at hpaths
    rw [gather_cons, List.count_append]
    rcases List.mem_cons.mp hfo with rfl | hmem
    · have hzero : (gather_file_stats ⟨extensions, true, skips⟩ rest).count
          (mkRecord fo.path f) = 0 := by
        rw [List.count_eq_zero]
        intro hc
        obtain ⟨fo2, hfo2, -, f2, -, -, heq⟩ := (mem_gather_iff _ _ _).mp hc
        have hpeq := (mkRecord_inj heq).1
        exact hpaths.1 (hpeq ▸ List.mem_map_of_mem Folder.path hfo2)
      rw [hzero]
      by_cases hk : keepFolder skips fo.path
      · rw [if_pos hk, if_pos hk, process_files_all_true]
        rw [List.count_map_of_injective _ (mkRecord fo.path)
          (fun a b hab => (mkRecord_inj hab).2) f]
        rw [List.count_eq_one_of_mem (hfiles fo (by simp)) hf]
      · rw [if_neg hk, if_neg hk]
        rfl
    · have hzero : (if keepFolder skips fo0.path then
          process_files ⟨extensions, true, skips⟩ fo0 else []).count (mkRecord fo.path f)
          = 0 := by
        rw [List.count_eq_zero]
        intro hc
        have hc2 : mkRecord fo.path f ∈ process_files ⟨extensions, true, skips⟩ fo0 := by
          by_cases hk : keepFolder skips fo0.path
          · rw [if_pos hk] at hc
            exact hc
          · rw [if_neg hk] at hc
            cases hc
        rw [process_files_all_true, List.mem_map] at hc2
        obtain ⟨f2, -, heq⟩ := hc2
        have hpeq := (mkRecord_inj heq).1
        exact hpaths.1 (hpeq ▸ List.mem_map_of_mem Folder.path hmem)
      rw [hzero, Nat.zero_add]
      exact IH hpaths.2 (fun fo2 hfo2 => hfiles fo2 (by simp [hfo2])) fo hmem f hf

/-- C4: with all_files = true the scan returns exactly one record per
file entry of every walked folder whose full path contains none of the
skip substrings, and no record for entries of folders whose path contains
a skip substring; every returned record arises from such a kept folder. -/
theorem C4_scan_all_files (extensions skips : List Str) (walk : List Folder)
    (hpaths : (walk.map Folder.path).Nodup)
    (hfiles : ∀ fo ∈ walk, fo.files.Nodup) :
    (∀ fo ∈ walk, ∀ f ∈ fo.files,
      (gather_file_stats ⟨extensions, true, skips⟩ walk).count (mkRecord fo.path f)
        = if keepFolder skips fo.path then 1 else 0) ∧
    (∀ r ∈ gather_file_stats ⟨extensions, true, skips⟩ walk,
      ∃ fo ∈ walk, keepFolder skips fo.path = true ∧ ∃ f ∈ fo.files, r = mkRecord fo.path f) := by
  constructor
  · exact count_gather_all extensions skips walk hpaths hfiles
  · intro r hr
    obtain ⟨fo, hfo, hkeep, f, hf, -, rfl⟩ := (mem_gather_iff _ _ _).mp hr
    exact ⟨fo, hfo, hkeep, f, hf, rfl⟩

/-- Witness for C4 at a concrete walk with one kept and one skipped
folder. -/
theorem C4_scan_all_files_witness :
    (∀ fo ∈ [Folder.mk (str "r") [⟨str "a.mp3", 10, 0, 0⟩],
        Folder.mk (str "r\\skip_me") [⟨str "c.mp3", 5, 0, 0⟩]], ∀ f ∈ fo.files,
      (gather_file_stats ⟨[], true, [str "skip_me"]⟩
          [Folder.mk (str "r") [⟨str "a.mp3", 10, 0, 0⟩],
            Folder.mk (str "r\\skip_me") [⟨str "c.mp3", 5, 0, 0⟩]]).count (mkRecord fo.path f)
        = if keepFolder [str "skip_me"] fo.path then 1 else 0) ∧
    (∀ r ∈ gather_file_stats ⟨[], true, [str "skip_me"]⟩
        [Folder.mk (str "r") [⟨str "a.mp3", 10, 0, 0⟩],
          Folder.mk (str "r\\skip_me") [⟨str "c.mp3", 5, 0, 0⟩]],
      ∃ fo ∈ [Folder.mk (str "r") [⟨str "a.mp3", 10, 0, 0⟩],
          Folder.mk (str "r\\skip_me") [⟨str "c.mp3", 5, 0, 0⟩]],
        keepFolder [str "skip_me"] fo.path = true ∧
        ∃ f ∈ fo.files, r = mkRecord fo.path f) :=
  C4_scan_all_files [] [str "skip_me"]
    [Folder.mk (str "r") [⟨str "a.mp3", 10, 0, 0⟩],
      Folder.mk (str "r\\skip_me") [⟨str "c.mp3", 5, 0, 0⟩]]
    (by decide) (by decide)

/-- C5 (amended): with all_files = false, every record the scan returns
comes from a file accepted by the classifier — its lowercased name ends
with some configured entry — and no rejected file yields a record; the
classifier returns true iff the lowercased filename ends with some entry
of the list, compared literally and case-insensitively on the filename
side only.  (The record's File Type field is the lowercased splitext
extension, which need not be a member of the configured set.) -/
theorem C5_explicit_extensions (extensions skips : List Str) (walk : List Folder) :
    (∀ filename : Str, is_media_file extensions filename = true ↔
      ∃ ext ∈ extensions, ext <:+ filename.map Char.toLower) ∧
    (∀ r ∈ gather_file_stats ⟨extensions, false, skips⟩ walk,
      is_media_file extensions r.fileName = true) ∧
    (∀ fo ∈ walk, ∀ f ∈ fo.files, is_media_file extensions f.name = false →
      mkRecord fo.path f ∉ gather_file_stats ⟨extensions, false, skips⟩ walk) := by
  refine ⟨?_, ?_, ?_⟩
  · intro filename
    unfold is_media_file
    rw [List.any_eq_true]
    constructor
    · rintro ⟨ext, hext, hdec⟩
      exact ⟨ext, hext, of_decide_eq_true hdec⟩
    · rintro ⟨ext, hext, hsuf⟩
      exact ⟨ext, hext, decide_eq_true hsuf⟩
  · intro r hr
    obtain ⟨fo, -, -, f, -, hcls, rfl⟩ := (mem_gather_iff _ _ _).mp hr
    simpa using hcls
  · intro fo hfo f hf hcls hmem
    obtain ⟨fo2, -, -, f2, -, hcls2, heq⟩ := (mem_gather_iff _ _ _).mp hmem
    have hfeq := (mkRecord_inj heq).2
    rw [← hfeq] at hcls2
    simp only [Bool.false_or] at hcls2
    rw [hcls] at hcls2
    cases hcls2

/-- C5 counterexample: with extensions = [".mp3"] a file named exactly
".mp3" is accepted by the classifier (its lowercased name ends with
".mp3"), yet its record's File Type is the empty string — splitext gives
a dotfile no extension — which is not a member of the extension set, even
case-insensitively. -/
theorem C5_counterexample :
    gather_file_stats ⟨[str ".mp3"], false, []⟩ [Folder.mk (str "r") [⟨str ".mp3", 7, 0, 0⟩]]
      = [mkRecord (str "r") ⟨str ".mp3", 7, 0, 0⟩] ∧
    (mkRecord (str "r") ⟨str ".mp3", 7, 0, 0⟩).fileType = [] ∧
    (∀ ext ∈ [str ".mp3"],
      (mkRecord (str "r") ⟨str ".mp3", 7, 0, 0⟩).fileType ≠ ext.map Char.toLower) := by
  refine ⟨by decide, by decide, by decide⟩

theorem chunkGo_nil (bs f : Nat) : chunkGo bs f [] = [] := by
  cases f <;> rfl

theorem chunkGo_ne_nil_eq (bs f : Nat) (l : List FileRecord) (hl : l ≠ []) :
    chunkGo bs (f + 1) l = l.take bs :: chunkGo bs f (l.drop bs) := by
  cases l with
  | nil => cases hl rfl
  | cons x xs => rfl

theorem chunkGo_props (bs : Nat) (hbs : 0 < bs) :
    ∀ (fuel : Nat) (l : List FileRecord), l.length ≤ fuel →
      (chunkGo bs fuel l).flatten = l ∧
      (∀ c ∈ chunkGo bs fuel l, c.length ≤ bs ∧ c ≠ []) ∧
      (∀ c ∈ (chunkGo bs fuel l).dropLast, c.length = bs) := by
  intro fuel
  induction fuel with
  | zero =>
    intro l hl
    have hnil : l = [] := List.eq_nil_of_length_eq_zero (Nat.le_zero.mp hl)
    subst hnil
    refine ⟨rfl, ?_, ?_⟩ <;> intro c hc <;> simp [chunkGo_nil] at hc
  | succ f IH =>
    intro l hl
    cases l with
    | nil =>
      refine ⟨rfl, ?_, ?_⟩ <;> intro c hc <;> simp [chunkGo_nil] at hc
    | cons x xs =>
      have hdrop : ((x :: xs).drop bs).length ≤ f := by
        rw [List.length_drop]
        simp only [List.length_cons] at hl ⊢
        omega
      obtain ⟨ih1, ih2, ih3⟩ := IH ((x :: xs).drop bs) hdrop
      rw [chunkGo_ne_nil_eq bs f (x :: xs) (by simp)]
      refine ⟨?_, ?_, ?_⟩
      · rw [List.flatten_cons, ih1, List.take_append_drop]
      · intro c hc
        rcases List.mem_cons.mp hc with rfl | hc2
        · constructor
          · rw [List.length_take]
            omega
          · obtain ⟨b2, hb2⟩ : ∃ b2, bs = b2 + 1 := ⟨bs - 1, by omega⟩
            rw [hb2, List.take_succ_cons]
            simp
        · exact ih2 c hc2
      · cases hchunk : chunkGo bs f ((x :: xs).drop bs) with
        | nil =>
          intro c hc
          simp [hchunk] at hc
        | cons c0 cs =>
          intro c hc
          rw [List.dropLast_cons₂] at hc
          rcases List.mem_cons.mp hc with rfl | hc2
          · have hdne : (x :: xs).drop bs ≠ [] := by
              intro hd
              rw [hd, chunkGo_nil] at hchunk
              cases hchunk
            have hlen : bs < (x :: xs).length := by
              by_contra hge
              exact hdne (List.drop_eq_nil_of_le (by omega))
            rw [List.length_take]
            omega
          · rw [← hchunk] at hc2
            exact ih3 c hc2

theorem chunkList_props (bs : Nat) (hbs : 0 < bs) (l : List FileRecord) :
    (chunkList bs l).flatten = l ∧
    (∀ c ∈ chunkList bs l, c.length ≤ bs ∧ c ≠ []) ∧
    (∀ c ∈ (chunkList bs l).dropLast, c.length = bs) := by
  unfold chunkList
  rw [if_neg (by omega)]
  exact chunkGo_props bs hbs l.length l (le_refl _)

theorem chunkList_two (bs : Nat) (b1 b2 : List FileRecord)
    (h1 : b1.length = bs) (h2 : 0 < b2.length) (h3 : b2.length ≤ bs) :
    chunkList bs (b1 ++ b2) = [b1, b2] := by
  have hbs : 0 < bs := by omega
  have hb1ne : b1 ≠ [] := by
    intro hcontra
    rw [hcontra] at h1
    simp at h1
    omega
  have hb2ne : b2 ≠ [] := by
    intro hcontra
    rw [hcontra] at h2
    simp at h2
  unfold chunkList
  rw [if_neg (by omega)]
  have hlen : (b1 ++ b2).length = bs + b2.length := by
    rw [List.length_append, h1]
  rw [hlen]
  have hfu : bs + b2.length = (bs + b2.length - 1) + 1 := by omega
  rw [hfu, chunkGo_ne_nil_eq bs _ _ (by simp [hb1ne])]
  rw [← h1, List.take_left, List.drop_left, h1]
  have hfu2 : bs + b2.length - 1 = (bs + b2.length - 2) + 1 := by omega
  rw [hfu2, chunkGo_ne_nil_eq bs _ _ hb2ne]
  rw [List.take_of_length_le h3, List.drop_eq_nil_of_le h3, chunkGo_nil]

theorem batch_foldl_spec (destination_folder : Str) :
    ∀ (chunks : List (List FileRecord)) (st : MoveSt) (k : Nat),
      chunks.foldl
          (fun acc b => (move_files_to_destination acc.1 destination_folder b, acc.2 + 1))
          (st, k)
        = (chunks.foldl (fun acc b => move_files_to_destination acc destination_folder b) st,
            k + chunks.length) := by
  intro chunks
  induction chunks with
  | nil =>
    intro st k
    simp
  | cons c cs IH =>
    intro st k
    rw [List.foldl_cons, List.foldl_cons, IH]
    have harith : k + 1 + cs.length = k + (cs.length + 1) := by omega
    rw [harith]
    rfl

/-- C6 (amended): _batch_move_files partitions the input record sequence
into slices of batch_size preserving input order (only the last slice may
be shorter), processes them in order with move_files_to_destination, and
sleeps for the configured delay after every batch, including the final
one (the number of sleep calls equals the number of batches). -/
theorem C6_batching (destination_folder : Str) (batch_size : Nat) (st : MoveSt)
    (files_to_move : List FileRecord) (hbs : 0 < batch_size) :
    (chunkList batch_size files_to_move).flatten = files_to_move ∧
    (∀ c ∈ chunkList batch_size files_to_move, c.length ≤ batch_size ∧ c ≠ []) ∧
    (∀ c ∈ (chunkList batch_size files_to_move).dropLast, c.length = batch_size) ∧
    (batch_move_files destination_folder batch_size st files_to_move).2
      = (chunkList batch_size files_to_move).length ∧
    (batch_move_files destination_folder batch_size st files_to_move).1
      = (chunkList batch_size files_to_move).foldl
          (fun acc b => move_files_to_destination acc destination_folder b) st := by
  obtain ⟨h1, h2, h3⟩ := chunkList_props batch_size hbs files_to_move
  refine ⟨h1, h2, h3, ?_, ?_⟩
  · unfold batch_move_files
    rw [batch_foldl_spec]
    simp
  · unfold batch_move_files
    rw [batch_foldl_spec]

/-- Witness for C6 at batch size 2 over three records. -/
theorem C6_batching_witness :
    (chunkList 2 [mkRecord (str "s") ⟨str "a.txt", 1, 0, 0⟩,
        mkRecord (str "s") ⟨str "b.txt", 2, 0, 0⟩,
        mkRecord (str "s") ⟨str "c.txt", 3, 0, 0⟩]).flatten
      = [mkRecord (str "s") ⟨str "a.txt", 1, 0, 0⟩,
          mkRecord (str "s") ⟨str "b.txt", 2, 0, 0⟩,
          mkRecord (str "s") ⟨str "c.txt", 3, 0, 0⟩] ∧
    (∀ c ∈ chunkList 2 [mkRecord (str "s") ⟨str "a.txt", 1, 0, 0⟩,
        mkRecord (str "s") ⟨str "b.txt", 2, 0, 0⟩,
        mkRecord (str "s") ⟨str "c.txt", 3, 0, 0⟩], c.length ≤ 2 ∧ c ≠ []) ∧
    (∀ c ∈ (chunkList 2 [mkRecord (str "s") ⟨str "a.txt", 1, 0, 0⟩,
        mkRecord (str "s") ⟨str "b.txt", 2, 0, 0⟩,
        mkRecord (str "s") ⟨str "c.txt", 3, 0, 0⟩]).dropLast, c.length = 2) ∧
    (batch_move_files (str "d") 2 ⟨[], []⟩
        [mkRecord (str "s") ⟨str "a.txt", 1, 0, 0⟩,
          mkRecord (str "s") ⟨str "b.txt", 2, 0, 0⟩,
          mkRecord (str "s") ⟨str "c.txt", 3, 0, 0⟩]).2
      = (chunkList 2 [mkRecord (str "s") ⟨str "a.txt", 1, 0, 0⟩,
          mkRecord (str "s") ⟨str "b.txt", 2, 0, 0⟩,
          mkRecord (str "s") ⟨str "c.txt", 3, 0, 0⟩]).length ∧
    (batch_move_files (str "d") 2 ⟨[], []⟩
        [mkRecord (str "s") ⟨str "a.txt", 1, 0, 0⟩,
          mkRecord (str "s") ⟨str "b.txt", 2, 0, 0⟩,
          mkRecord (str "s") ⟨str "c.txt", 3, 0, 0⟩]).1
      = (chunkList 2 [mkRecord (str "s") ⟨str "a.txt", 1, 0, 0⟩,
          mkRecord (str "s") ⟨str "b.txt", 2, 0, 0⟩,
          mkRecord (str "s") ⟨str "c.txt", 3, 0, 0⟩]).foldl
          (fun acc b => move_files_to_destination acc (str "d") b) ⟨[], []⟩ :=
  C6_batching (str "d") 2 ⟨[], []⟩
    [mkRecord (str "s") ⟨str "a.txt", 1, 0, 0⟩,
      mkRecord (str "s") ⟨str "b.txt", 2, 0, 0⟩,
      mkRecord (str "s") ⟨str "c.txt", 3, 0, 0⟩] (by decide)

/-- C6 counterexample: with batch size 1 and two records there are two
batches; the code sleeps after each of them — twice — not once (batches
minus one) as the claim states. -/
theorem C6_counterexample :
    (batch_move_files (str "d") 1 ⟨[], []⟩
        [mkRecord (str "s") ⟨str "a.txt", 1, 0, 0⟩,
          mkRecord (str "s") ⟨str "b.txt", 2, 0, 0⟩]).2 = 2 ∧
    (chunkList 1 [mkRecord (str "s") ⟨str "a.txt", 1, 0, 0⟩,
        mkRecord (str "s") ⟨str "b.txt", 2, 0, 0⟩]).length = 2 ∧
    (batch_move_files (str "d") 1 ⟨[], []⟩
        [mkRecord (str "s") ⟨str "a.txt", 1, 0, 0⟩,
          mkRecord (str "s") ⟨str "b.txt", 2, 0, 0⟩]).2
      ≠ (chunkList 1 [mkRecord (str "s") ⟨str "a.txt", 1, 0, 0⟩,
          mkRecord (str "s") ⟨str "b.txt", 2, 0, 0⟩]).length - 1 := by
  refine ⟨rfl, rfl, by decide⟩

theorem moveRecords_cons (destination_folder : Str) (st : MoveSt) (r : FileRecord)
    (rs : List FileRecord) :
    moveRecords destination_folder st (r :: rs)
      = if srcPath r = dstPath destination_folder r then
          moveRecords destination_folder st rs
        else
          if srcPath r ∈ st.fs then
            moveRecords destination_folder
              ⟨(st.fs.erase (srcPath r)) ++
                  [handle_file_conflict st.fs (dstPath destination_folder r)],
                st.moved ++
                  [(srcPath r, handle_file_conflict st.fs (dstPath destination_folder r))]⟩ rs
          else (st, true) := rfl

theorem moveRecords_append (destination_folder : Str) :
    ∀ (pre : List FileRecord) (st : MoveSt) (rest : List FileRecord),
    (moveRecords destination_folder st pre).2 = false →
    moveRecords destination_folder st (pre ++ rest)
      = moveRecords destination_folder (moveRecords destination_folder st pre).1 rest := by
  intro pre
  induction pre with
  | nil =>
    intro st rest _
    rfl
  | cons r rs IH =>
    intro st rest hok
    rw [List.cons_append, moveRecords_cons]
    rw [moveRecords_cons] at hok
    by_cases he : srcPath r = dstPath destination_folder r
    · rw [if_pos he] at hok ⊢
      conv_rhs => rw [moveRecords_cons, if_pos he]
      exact IH st rest hok
    · rw [if_neg he] at hok ⊢
      by_cases hm : srcPath r ∈ st.fs
      · rw [if_pos hm] at hok ⊢
        conv_rhs => rw [moveRecords_cons, if_neg he, if_pos hm]
        exact IH _ rest hok
      · rw [if_neg hm] at hok
        cases hok

theorem moveRecords_abort (destination_folder : Str) (st : MoveSt)
    (pre post : List FileRecord) (rbad : FileRecord)
    (hok : (moveRecords destination_folder st pre).2 = false)
    (hneq : srcPath rbad ≠ dstPath destination_folder rbad)
    (hmiss : srcPath rbad ∉ (moveRecords destination_folder st pre).1.fs) :
    moveRecords destination_folder st (pre ++ rbad :: post)
      = ((moveRecords destination_folder st pre).1, true) := by
  rw [moveRecords_append destination_folder pre st (rbad :: post) hok]
  rw [moveRecords_cons, if_neg hneq, if_neg hmiss]

/-- C3 (amended): a single record's move failure is caught and logged by
the try/except wrapping the whole move_files_to_destination call, so it
does abort the remaining records of that call — the current batch in
batched mode, the whole selection otherwise — which are then absent from
the moved-files mapping along with the failed record; it does not abort
the run as a whole: _batch_move_files processes every subsequent batch
from the state reached so far.  No separate failure counter is kept. -/
theorem C3_failure_isolation (destination_folder : Str) (st : MoveSt)
    (pre post b2 : List FileRecord) (rbad : FileRecord) (batch_size : Nat)
    (hok : (moveRecords destination_folder st pre).2 = false)
    (hneq : srcPath rbad ≠ dstPath destination_folder rbad)
    (hmiss : srcPath rbad ∉ (moveRecords destination_folder st pre).1.fs)
    (hbs : batch_size = (pre ++ rbad :: post).length)
    (h2 : 0 < b2.length) (h3 : b2.length ≤ batch_size) :
    move_files_to_destination st destination_folder (pre ++ rbad :: post)
      = (moveRecords destination_folder st pre).1 ∧
    batch_move_files destination_folder batch_size st ((pre ++ rbad :: post) ++ b2)
      = (move_files_to_destination
          (move_files_to_destination st destination_folder (pre ++ rbad :: post))
          destination_folder b2, 2) := by
  have habort := moveRecords_abort destination_folder st pre post rbad hok hneq hmiss
  constructor
  · unfold move_files_to_destination
    rw [habort]
  · unfold batch_move_files
    rw [chunkList_two batch_size (pre ++ rbad :: post) b2 hbs.symm h2 h3]
    rfl

/-- Witness for C3 at a concrete failing record: rbad's source is absent,
rgood and the second batch move fine. -/
theorem C3_failure_isolation_witness :
    move_files_to_destination ⟨[str "s\\b.txt", str "s\\c.txt"], []⟩ (str "d")
        ([] ++ mkRecord (str "s") ⟨str "a.txt", 1, 0, 0⟩
          :: [mkRecord (str "s") ⟨str "b.txt", 2, 0, 0⟩])
      = (moveRecords (str "d") ⟨[str "s\\b.txt", str "s\\c.txt"], []⟩ []).1 ∧
    batch_move_files (str "d") 2 ⟨[str "s\\b.txt", str "s\\c.txt"], []⟩
        (([] ++ mkRecord (str "s") ⟨str "a.txt", 1, 0, 0⟩
          :: [mkRecord (str "s") ⟨str "b.txt", 2, 0, 0⟩])
          ++ [mkRecord (str "s") ⟨str "c.txt", 3, 0, 0⟩])
      = (move_files_to_destination
          (move_files_to_destination ⟨[str "s\\b.txt", str "s\\c.txt"], []⟩ (str "d")
            ([] ++ mkRecord (str "s") ⟨str "a.txt", 1, 0, 0⟩
              :: [mkRecord (str "s") ⟨str "b.txt", 2, 0, 0⟩]))
          (str "d") [mkRecord (str "s") ⟨str "c.txt", 3, 0, 0⟩], 2) :=
  C3_failure_isolation (str "d") ⟨[str "s\\b.txt", str "s\\c.txt"], []⟩
    [] [mkRecord (str "s") ⟨str "b.txt", 2, 0, 0⟩]
    [mkRecord (str "s") ⟨str "c.txt", 3, 0, 0⟩]
    (mkRecord (str "s") ⟨str "a.txt", 1, 0, 0⟩) 2
    rfl (by decide) (by decide) (by decide) (by decide) (by decide)

/-- C3 counterexample: in a single move_files_to_destination call over
[rbad, rgood] — rbad's source vanished, rgood's source exists — the
failure of rbad aborts the loop and rgood is not moved, although the
same call over [rgood] alone moves it; so a record's failure does abort
the remaining records of its batch. -/
theorem C3_counterexample :
    (move_files_to_destination ⟨[str "s\\b.txt"], []⟩ (str "d")
        [mkRecord (str "s") ⟨str "a.txt", 1, 0, 0⟩,
          mkRecord (str "s") ⟨str "b.txt", 2, 0, 0⟩]).moved = [] ∧
    (move_files_to_destination ⟨[str "s\\b.txt"], []⟩ (str "d")
        [mkRecord (str "s") ⟨str "b.txt", 2, 0, 0⟩]).moved
      = [(str "s\\b.txt", str "d\\b.txt")] := by
  refine ⟨rfl, rfl⟩

theorem pymax_mem (types : List Str) :
    ∀ (xs : List Str) (x : Str),
      xs.foldl (fun best a => if types.count best < types.count a then a else best) x
        ∈ x :: xs := by
  intro xs
  induction xs with
  | nil =>
    intro x
    simp
  | cons a as IH =>
    intro x
    rw [List.foldl_cons]
    have hmem := IH (if types.count x < types.count a then a else x)
    rcases List.mem_cons.mp hmem with heq | hmem2
    · rw [heq]
      by_cases hc : types.count x < types.count a
      · rw [if_pos hc]
        simp
      · rw [if_neg hc]
        simp
    · simp [hmem2]

theorem pymax_ge_start (types : List Str) :
    ∀ (xs : List Str) (x : Str),
      types.count x ≤ types.count
        (xs.foldl (fun best a => if types.count best < types.count a then a else best) x) := by
  intro xs
  induction xs with
  | nil =>
    intro x
    exact le_refl _
  | cons a as IH =>
    intro x
    rw [List.foldl_cons]
    refine le_trans ?_ (IH (if types.count x < types.count a then a else x))
    by_cases hc : types.count x < types.count a
    · rw [if_pos hc]
      omega
    · rw [if_neg hc]

theorem pymax_ge_all (types : List Str) :
    ∀ (xs : List Str) (x : Str), ∀ u ∈ x :: xs,
      types.count u ≤ types.count
        (xs.foldl (fun best a => if types.count best < types.count a then a else best) x) := by
  intro xs
  induction xs with
  | nil =>
    intro x u hu
    simp at hu
    rw [hu]
    exact le_refl _
  | cons a as IH =>
    intro x u hu
    rw [List.foldl_cons]
    rcases List.mem_cons.mp hu with rfl | hu2
    · refine le_trans ?_ (pymax_ge_start types as (if types.count u < types.count a then a else u))
      by_cases hc : types.count u < types.count a
      · rw [if_pos hc]
        omega
      · rw [if_neg hc]
    · rcases List.mem_cons.mp hu2 with rfl | hu3
      · refine le_trans ?_ (pymax_ge_start types as (if types.count x < types.count u then u else x))
        by_cases hc : types.count x < types.count u
        · rw [if_pos hc]
        · rw [if_neg hc]
          omega
      · exact IH (if types.count x < types.count a then a else x) u (by simp [hu3])

/-- C7 (amended): for a non-empty record list, most_occurring_file_type is
a file type attaining the maximal count; the tie among maximal types is
broken by the first maximal element of set(file_types) in its iteration
order, which in CPython is implementation-defined (hash-randomised), not
the input order. -/
theorem C7_most_common (stats : List FileRecord) (setOrder : List Str)
    (hperm : setOrder.Perm (stats.map FileRecord.fileType).dedup)
    (hne : stats ≠ []) :
    ∃ t, (get_summary_stats stats setOrder).2.2.2.2 = some t ∧
      t ∈ stats.map FileRecord.fileType ∧
      ∀ u ∈ stats.map FileRecord.fileType,
        (stats.map FileRecord.fileType).count u
          ≤ (stats.map FileRecord.fileType).count t := by
  have hne2 : stats.map FileRecord.fileType ≠ [] := by
    simpa using hne
  have hdne : (stats.map FileRecord.fileType).dedup ≠ [] := by
    rw [Ne, List.dedup_eq_nil]
    exact hne2
  have hsne : setOrder ≠ [] := by
    intro hcontra
    rw [hcontra] at hperm
    exact hdne hperm.nil_eq.symm
  obtain ⟨x, xs, hxo⟩ := List.exists_cons_of_ne_nil hsne
  refine ⟨xs.foldl (fun best a =>
      if (stats.map FileRecord.fileType).count best
        < (stats.map FileRecord.fileType).count a then a else best) x, ?_, ?_, ?_⟩
  · unfold get_summary_stats
    rw [if_neg (by simpa using hne)]
    rw [hxo]
    rfl
  · have hmem := pymax_mem (stats.map FileRecord.fileType) xs x
    rw [← hxo] at hmem
    have hmem2 := hperm.mem_iff.mp hmem
    exact List.mem_dedup.mp hmem2
  · intro u hu
    have hu2 : u ∈ setOrder := hperm.mem_iff.mpr (List.mem_dedup.mpr hu)
    rw [hxo] at hu2
    exact pymax_ge_all (stats.map FileRecord.fileType) xs x u hu2

/-- Witness for C7 over two records with distinct types. -/
theorem C7_most_common_witness :
    ∃ t, (get_summary_stats
        [mkRecord (str "s") ⟨str "a.x", 1, 0, 0⟩, mkRecord (str "s") ⟨str "b.y", 1, 0, 0⟩]
        [str ".x", str ".y"]).2.2.2.2 = some t ∧
      t ∈ [mkRecord (str "s") ⟨str "a.x", 1, 0, 0⟩,
          mkRecord (str "s") ⟨str "b.y", 1, 0, 0⟩].map FileRecord.fileType ∧
      ∀ u ∈ [mkRecord (str "s") ⟨str "a.x", 1, 0, 0⟩,
          mkRecord (str "s") ⟨str "b.y", 1, 0, 0⟩].map FileRecord.fileType,
        ([mkRecord (str "s") ⟨str "a.x", 1, 0, 0⟩,
            mkRecord (str "s") ⟨str "b.y", 1, 0, 0⟩].map FileRecord.fileType).count u
          ≤ ([mkRecord (str "s") ⟨str "a.x", 1, 0, 0⟩,
              mkRecord (str "s") ⟨str "b.y", 1, 0, 0⟩].map FileRecord.fileType).count t :=
  C7_most_common
    [mkRecord (str "s") ⟨str "a.x", 1, 0, 0⟩, mkRecord (str "s") ⟨str "b.y", 1, 0, 0⟩]
    [str ".x", str ".y"] (by decide) (by decide)

/-- C7 counterexample: two records with types .x then .y (a tie).  The
first-seen-order recipe of the claim picks .x, but the set iteration
order [.y, .x] — a legitimate enumeration of the distinct types — makes
get_summary_stats return .y: the tie is not broken by input order. -/
theorem C7_counterexample :
    (get_summary_stats
        [mkRecord (str "s") ⟨str "a.x", 1, 0, 0⟩, mkRecord (str "s") ⟨str "b.y", 1, 0, 0⟩]
        [str ".y", str ".x"]).2.2.2.2 = some (str ".y") ∧
    pymaxByCount
        ([mkRecord (str "s") ⟨str "a.x", 1, 0, 0⟩,
            mkRecord (str "s") ⟨str "b.y", 1, 0, 0⟩].map FileRecord.fileType)
        (firstSeenDedup ([mkRecord (str "s") ⟨str "a.x", 1, 0, 0⟩,
            mkRecord (str "s") ⟨str "b.y", 1, 0, 0⟩].map FileRecord.fileType))
      = some (str ".x") ∧
    [str ".y", str ".x"].Perm
      (([mkRecord (str "s") ⟨str "a.x", 1, 0, 0⟩,
          mkRecord (str "s") ⟨str "b.y", 1, 0, 0⟩].map FileRecord.fileType).dedup) ∧
    some (str ".y") ≠ some (str ".x") := by
  refine ⟨rfl, rfl, by decide, by decide⟩

theorem fsLoop_eval_B (n : Nat) (h : n < 1024) :
    fsLoop n 1 sizeUnits = ((n, 1), str "B") := by
  unfold sizeUnits
  rw [fsLoop, if_pos (by omega)]

theorem fsLoop_eval_KB (n : Nat) (h1 : 1024 ≤ n) (h2 : n < 1048576) :
    fsLoop n 1 sizeUnits = ((n, 1024), str "KB") := by
  unfold sizeUnits
  rw [fsLoop, if_neg (by omega), fsLoop, if_pos (by omega)]

theorem fsLoop_eval_MB (n : Nat) (h1 : 1048576 ≤ n) (h2 : n < 1073741824) :
    fsLoop n 1 sizeUnits = ((n, 1048576), str "MB") := by
  unfold sizeUnits
  rw [fsLoop, if_neg (by omega), fsLoop, if_neg (by omega), fsLoop, if_pos (by omega)]

theorem fsLoop_eval_GB (n : Nat) (h1 : 1073741824 ≤ n) (h2 : n < 1099511627776) :
    fsLoop n 1 sizeUnits = ((n, 1073741824), str "GB") := by
  unfold sizeUnits
  rw [fsLoop, if_neg (by omega), fsLoop, if_neg (by omega), fsLoop, if_neg (by omega),
    fsLoop, if_pos (by omega)]

theorem fsLoop_eval_TB (n : Nat) (h1 : 1099511627776 ≤ n) (h2 : n < 1125899906842624) :
    fsLoop n 1 sizeUnits = ((n, 1099511627776), str "TB") := by
  unfold sizeUnits
  rw [fsLoop, if_neg (by omega), fsLoop, if_neg (by omega), fsLoop, if_neg (by omega),
    fsLoop, if_neg (by omega), fsLoop, if_pos (by omega)]

/-- C9 (amended): for every byte count below 1024^5, format_size renders
the count to two decimal places (format2, nearest hundredth) in the
first unit among B, KB, MB, GB, TB — scanning in that order — whose
scaled value is below 1024, i.e. the largest unit giving a value of at
least one; in particular format_size 1536 = "1.50 KB",
format_size 1073741824 = "1.00 GB", and format_size 512 = "512.00 B".
Counts of 1024^5 bytes and above are instead divided by 1024 on all five
iterations and labelled TB (see the counterexample). -/
theorem C9_format_size (n : Nat) (hn : n < 1024 ^ 5) :
    (n < 1024 → format_size n = format2 n 1 ++ ' ' :: str "B") ∧
    (1024 ≤ n → n < 1024 ^ 2 → format_size n = format2 n 1024 ++ ' ' :: str "KB") ∧
    (1024 ^ 2 ≤ n → n < 1024 ^ 3 → format_size n = format2 n (1024 ^ 2) ++ ' ' :: str "MB") ∧
    (1024 ^ 3 ≤ n → n < 1024 ^ 4 → format_size n = format2 n (1024 ^ 3) ++ ' ' :: str "GB") ∧
    (1024 ^ 4 ≤ n → format_size n = format2 n (1024 ^ 4) ++ ' ' :: str "TB") ∧
    format_size 1536 = str "1.50 KB" ∧
    format_size 1073741824 = str "1.00 GB" ∧
    format_size 512 = str "512.00 B" := by
  have e2 : (1024 : Nat) ^ 2 = 1048576 := by norm_num
  have e3 : (1024 : Nat) ^ 3 = 1073741824 := by norm_num
  have e4 : (1024 : Nat) ^ 4 = 1099511627776 := by norm_num
  have e5 : (1024 : Nat) ^ 5 = 1125899906842624 := by norm_num
  refine ⟨?_, ?_, ?_, ?_, ?_, by decide, by decide, by decide⟩
  · intro h
    unfold format_size
    rw [fsLoop_eval_B n h]
  · intro h1 h2
    unfold format_size
    rw [fsLoop_eval_KB n h1 (by omega)]
  · intro h1 h2
    unfold format_size
    rw [fsLoop_eval_MB n (by omega) (by omega), e2]
  · intro h1 h2
    unfold format_size
    rw [fsLoop_eval_GB n (by omega) (by omega), e3]
  · intro h1
    unfold format_size
    rw [fsLoop_eval_TB n (by omega) (by omega), e4]

/-- Witness for C9 at 1536 bytes (the KB branch). -/
theorem C9_format_size_witness :
    (1536 < 1024 → format_size 1536 = format2 1536 1 ++ ' ' :: str "B") ∧
    (1024 ≤ 1536 → 1536 < 1024 ^ 2 →
      format_size 1536 = format2 1536 1024 ++ ' ' :: str "KB") ∧
    (1024 ^ 2 ≤ 1536 → 1536 < 1024 ^ 3 →
      format_size 1536 = format2 1536 (1024 ^ 2) ++ ' ' :: str "MB") ∧
    (1024 ^ 3 ≤ 1536 → 1536 < 1024 ^ 4 →
      format_size 1536 = format2 1536 (1024 ^ 3) ++ ' ' :: str "GB") ∧
    (1024 ^ 4 ≤ 1536 → format_size 1536 = format2 1536 (1024 ^ 4) ++ ' ' :: str "TB") ∧
    format_size 1536 = str "1.50 KB" ∧
    format_size 1073741824 = str "1.00 GB" ∧
    format_size 512 = str "512.00 B" :=
  C9_format_size 1536 (by norm_num)

/-- C9 counterexample: at 1024^5 bytes no unit among B..TB has a scaled
value below 1024 — the TB-scaled value 1024^5 / 1024^4 is exactly 1024 —
so the claimed unit-selection rule selects no unit, yet the code divides
by 1024 on all five iterations and returns "1.00 TB" (the PB-scaled
value labelled TB). -/
theorem C9_counterexample :
    format_size (1024 ^ 5) = str "1.00 TB" ∧
    (∀ k : Nat, k ≤ 4 → ¬ (1024 ^ 5 < 1024 ^ (k + 1))) := by
  constructor
  · decide
  · intro k hk hlt
    have hle : (1024 : Nat) ^ (k + 1) ≤ 1024 ^ 5 := Nat.pow_le_pow_right (by omega) (by omega)
    exact Nat.lt_irrefl _ (Nat.lt_of_lt_of_le hlt hle)

end Filer
